import Mathlib

/-!
A shallow embedding of the pixel-splitting histogram engine of
src/pyFAI/ext/splitBBox.pyx (functions histoBBox1d and histoBBox2d),
over exact rational arithmetic, together with theorems about its
range resolution, correction pipeline, overlap splitting and
normalisation behaviour.
-/

namespace SplitBBox

/-- Semantics of a C integer cast (the `<ssize_t>` casts in splitBBox.pyx):
truncation toward zero. -/
def cInt (q : ℚ) : ℤ := if q < 0 then ⌈q⌉ else ⌊q⌋

/-- Modelled from the spec: the upper-bound rounding factor.  The constant and
the two helpers below live in regrid_common.pxi, which is not part of the
sources; the spec describes the policy as nudging the upper limit outward by a
(32-bit) machine epsilon so that the maximum-valued pixel falls strictly
inside the last bin.  8388608 = 2 ^ 23. -/
def EPS32 : ℚ := 1 + 1 / 8388608

/-- Modelled from the spec: upper-bound rounding, nudging the maximum outward
(away from the data) by the machine-epsilon factor. -/
def calc_upper_bound (x : ℚ) : ℚ := if 0 < x then x * EPS32 else x / EPS32

/-- Modelled from the spec: fractional bin coordinate,
fbin = (value - resolvedMin) / binWidth. -/
def get_bin_number (x0 pos_min delta : ℚ) : ℚ := (x0 - pos_min) / delta

/-- Lower bin index of a pixel in histoBBox1d (splitBBox.pyx lines 213-216):
clamped to 0 when the fractional coordinate is negative. -/
def bin0_minOf (fmin : ℚ) : ℤ := if fmin < 0 then 0 else cInt fmin

/-- Upper bin index of a pixel in histoBBox1d (splitBBox.pyx lines 209-212):
clamped to bins - 1 when the fractional coordinate reaches the bin count. -/
def bin0_maxOf (bins : ℕ) (fmax : ℚ) : ℤ :=
  if (bins : ℚ) ≤ fmax then (bins : ℤ) - 1 else cInt fmax

/-- The additions a single pixel with fractional footprint [fmin, fmax] makes
to the outCount histogram of histoBBox1d (splitBBox.pyx lines 205-248): the
pixel is skipped when entirely outside [0, bins); otherwise either the whole
mass 1.0 goes to a single bin, or the left bin gets deltaA * deltaL, the
right bin deltaA * deltaR, and every interior bin deltaA, where
deltaA = 1 / (fmax - fmin).  The additions to outData are the corrected
weight times the same fractions. -/
def contrib1d (bins : ℕ) (fmin fmax : ℚ) : ℤ → ℚ := fun b =>
  if fmax < 0 ∨ (bins : ℚ) ≤ fmin then 0
  else
    if bin0_minOf fmin = bin0_maxOf bins fmax then
      (if b = bin0_minOf fmin then 1 else 0)
    else
      (if b = bin0_minOf fmin then
          (1 / (fmax - fmin)) * (((bin0_minOf fmin : ℚ) + 1) - fmin) else 0)
      + (if b = bin0_maxOf bins fmax then
          (1 / (fmax - fmin)) * (fmax - (bin0_maxOf bins fmax : ℚ)) else 0)
      + (if bin0_minOf fmin + 1 ≤ b ∧ b < bin0_maxOf bins fmax then
          (1 / (fmax - fmin)) else 0)
/-- The additions a single pixel with clipped fractional footprint
[f0min, f0max] x [f1min, f1max] makes to the outCount histogram of
histoBBox2d (splitBBox.pyx lines 483-560): the four structural cases are
single/single, single along dim0 with a spread along dim1, spread along dim0
with a single bin along dim1, and a spread along both dimensions, where the
four corner bins receive one_over_area times the product of the two edge
fractions deltaL/deltaR/deltaD/deltaU, edge runs receive one_over_area times
one edge fraction, and the interior block receives one_over_area.  The
additions to outData are the corrected weight times the same fractions. -/
def contrib2d (f0min f0max f1min f1max : ℚ) : ℤ → ℤ → ℚ := fun i j =>
  if cInt f0min = cInt f0max then
    if cInt f1min = cInt f1max then
      (if i = cInt f0min ∧ j = cInt f1min then 1 else 0)
    else
      (if i = cInt f0min ∧ j = cInt f1min then
          (1 / (f1max - f1min)) * (((cInt f1min : ℚ) + 1) - f1min) else 0)
      + (if i = cInt f0min ∧ j = cInt f1max then
          (1 / (f1max - f1min)) * (f1max - (cInt f1max : ℚ)) else 0)
      + (if i = cInt f0min ∧ (cInt f1min + 1 ≤ j ∧ j < cInt f1max) then
          (1 / (f1max - f1min)) else 0)
  else
    if cInt f1min = cInt f1max then
      (if i = cInt f0min ∧ j = cInt f1min then
          (1 / (f0max - f0min)) * (((cInt f0min : ℚ) + 1) - f0min) else 0)
      + (if i = cInt f0max ∧ j = cInt f1min then
          (1 / (f0max - f0min)) * (f0max - (cInt f0max : ℚ)) else 0)
      + (if (cInt f0min + 1 ≤ i ∧ i < cInt f0max) ∧ j = cInt f1min then
          (1 / (f0max - f0min)) else 0)
    else
      (if i = cInt f0min ∧ j = cInt f1min then
          (1 / ((f0max - f0min) * (f1max - f1min)))
            * (((cInt f0min : ℚ) + 1) - f0min) * (((cInt f1min : ℚ) + 1) - f1min) else 0)
      + (if i = cInt f0min ∧ j = cInt f1max then
          (1 / ((f0max - f0min) * (f1max - f1min)))
            * (((cInt f0min : ℚ) + 1) - f0min) * (f1max - (cInt f1max : ℚ)) else 0)
      + (if i = cInt f0max ∧ j = cInt f1min then
          (1 / ((f0max - f0min) * (f1max - f1min)))
            * (f0max - (cInt f0max : ℚ)) * (((cInt f1min : ℚ) + 1) - f1min) else 0)
      + (if i = cInt f0max ∧ j = cInt f1max then
          (1 / ((f0max - f0min) * (f1max - f1min)))
            * (f0max - (cInt f0max : ℚ)) * (f1max - (cInt f1max : ℚ)) else 0)
      + (if (cInt f0min + 1 ≤ i ∧ i < cInt f0max) ∧ j = cInt f1min then
          (1 / ((f0max - f0min) * (f1max - f1min))) * (((cInt f1min : ℚ) + 1) - f1min) else 0)
      + (if (cInt f0min + 1 ≤ i ∧ i < cInt f0max)
            ∧ (cInt f1min + 1 ≤ j ∧ j < cInt f1max) then
          (1 / ((f0max - f0min) * (f1max - f1min))) else 0)
      + (if (cInt f0min + 1 ≤ i ∧ i < cInt f0max) ∧ j = cInt f1max then
          (1 / ((f0max - f0min) * (f1max - f1min))) * (f1max - (cInt f1max : ℚ)) else 0)
      + (if i = cInt f0min ∧ (cInt f1min + 1 ≤ j ∧ j < cInt f1max) then
          (1 / ((f0max - f0min) * (f1max - f1min))) * (((cInt f0min : ℚ) + 1) - f0min) else 0)
      + (if i = cInt f0max ∧ (cInt f1min + 1 ≤ j ∧ j < cInt f1max) then
          (1 / ((f0max - f0min) * (f1max - f1min))) * (f0max - (cInt f0max : ℚ)) else 0)

/-- Array lookup with the convention that every array is a flat list of
rationals; out-of-range reads return 0 (they never occur on validated
inputs). -/
def getQ (xs : List ℚ) (i : ℕ) : ℚ := xs.getD i 0

/-- Semantics of C fabs, written with a bare conditional so that concrete
inputs evaluate by kernel reduction. -/
def absQ (x : ℚ) : ℚ := if x < 0 then -x else x

/-- Python min of a pair, written with a bare conditional. -/
def minQ (x y : ℚ) : ℚ := if x ≤ y then x else y

/-- Python max of a pair, written with a bare conditional. -/
def maxQ (x y : ℚ) : ℚ := if y ≤ x then x else y

/-- The arguments of histoBBox1d (splitBBox.pyx lines 50-66).  Scalars that
Python receives as None-able objects are Options; numeric arrays are lists of
rationals; the mask is a list of booleans (nonzero int8 = masked). -/
structure Args1 where
  weights : List ℚ
  pos0 : List ℚ
  delta_pos0 : List ℚ
  pos1 : Option (List ℚ)
  delta_pos1 : Option (List ℚ)
  bins : ℕ
  pos0Range : Option (ℚ × ℚ)
  pos1Range : Option (ℚ × ℚ)
  dummy : Option ℚ
  delta_dummy : Option ℚ
  mask : Option (List Bool)
  dark : Option (List ℚ)
  flat : Option (List ℚ)
  solidangle : Option (List ℚ)
  polarization : Option (List ℚ)
  empty : Option ℚ
  normalization_factor : ℚ

def sizeOk (o : Option (List ℚ)) (n : ℕ) : Bool :=
  match o with
  | some l => l.length == n
  | none => true

/-- The assertions at the entry of histoBBox1d (splitBBox.pyx lines 93-96,
118-150, 179-180): all auxiliary arrays must match the pixel count and the
bin count must exceed 1 (the function has no bin-count clamping; `assert
bins > 1` rejects smaller requests).  A false result models an assertion
failure: the call raises and returns nothing. -/
def valid1d (a : Args1) : Bool :=
  let n := a.weights.length
  (a.pos0.length == n) && (a.delta_pos0.length == n) && (1 < a.bins) &&
  (match a.mask with
   | some m => m.length == n
   | none => true) &&
  sizeOk a.dark n && sizeOk a.flat n && sizeOk a.polarization n &&
  sizeOk a.solidangle n &&
  (match a.pos1Range with
   | some _ =>
     (match a.pos1, a.delta_pos1 with
      | some p, some dp => (p.length == n) && (dp.length == n)
      | _, _ => false)
   | none => true)

def masked1 (a : Args1) (i : ℕ) : Bool :=
  match a.mask with
  | some m => m.getD i false
  | none => false

/-- First scan pass of histoBBox1d (splitBBox.pyx lines 154-167): running
minimum of the lower pixel bounds over unmasked pixels, seeded with the
center coordinate of pixel 0 before the mask is consulted. -/
def scanMin1d (a : Args1) : ℚ :=
  (List.range a.weights.length).foldl
    (fun acc i => if masked1 a i then acc
      else if getQ a.pos0 i - getQ a.delta_pos0 i < acc then
        getQ a.pos0 i - getQ a.delta_pos0 i
      else acc)
    (getQ a.pos0 0)

/-- First scan pass of histoBBox1d: running maximum of the upper pixel
bounds over unmasked pixels, seeded with the center coordinate of pixel 0. -/
def scanMax1d (a : Args1) : ℚ :=
  (List.range a.weights.length).foldl
    (fun acc i => if masked1 a i then acc
      else if acc < getQ a.pos0 i + getQ a.delta_pos0 i then
        getQ a.pos0 i + getQ a.delta_pos0 i
      else acc)
    (getQ a.pos0 0)

/-- The resolved axis-0 range of histoBBox1d: the resolved minimum, the
user-visible maximum used for edge placement, the rounded maximum used for
the bin width, and the bin width. -/
structure Range1 where
  pos0_min : ℚ
  pos0_maxin : ℚ
  pos0_max : ℚ
  delta : ℚ

/-- Range resolution of histoBBox1d (splitBBox.pyx lines 169-176, 188): a
user range overrides the scanned bounds, then a negative minimum is clamped
to 0, then the upper bound is rounded outward and the bin width derived. -/
def range1dOf (a : Args1) : Range1 :=
  let pmin0 := match a.pos0Range with
    | some r => minQ r.1 r.2
    | none => scanMin1d a
  let pmaxin := match a.pos0Range with
    | some r => maxQ r.1 r.2
    | none => scanMax1d a
  let pmin := if pmin0 < 0 then 0 else pmin0
  let pmax := calc_upper_bound pmaxin
  ⟨pmin, pmaxin, pmax, (pmax - pmin) / (a.bins : ℚ)⟩

/-- The value cdummy of histoBBox1d (splitBBox.pyx lines 123-134): the dummy
value when one is given, otherwise the empty fill value, defaulting to 0. -/
def cdummy1 (a : Args1) : ℚ :=
  match a.dummy with
  | some d => d
  | none => a.empty.getD 0

/-- The tolerance ddummy of histoBBox1d: the supplied delta_dummy when both
dummy and delta_dummy are given, otherwise 0. -/
def ddummy1 (a : Args1) : ℚ :=
  match a.dummy, a.delta_dummy with
  | some _, some dd => dd
  | _, _ => 0

/-- The dummy test of histoBBox1d (splitBBox.pyx line 196): performed on the
raw weight, before any correction, whenever a dummy value was supplied. -/
def dummyReject1 (a : Args1) (i : ℕ) : Bool :=
  a.dummy.isSome && decide (absQ (getQ a.weights i - cdummy1 a) ≤ ddummy1 a)

/-- The azimuthal gate of histoBBox1d (splitBBox.pyx lines 178-186, 202-203):
only active when pos1Range is supplied. -/
def pos1Ok (a : Args1) (i : ℕ) : Bool :=
  match a.pos1Range with
  | none => true
  | some r =>
    let p1min := minQ r.1 r.2
    let p1max := calc_upper_bound (maxQ r.1 r.2)
    let c1 := getQ (a.pos1.getD []) i
    let d1 := getQ (a.delta_pos1.getD []) i
    !(decide (c1 + d1 < p1min) || decide (c1 - d1 > p1max))

/-- A pixel enters the accumulation of histoBBox1d iff it is unmasked, not
dummy-rejected and passes the azimuthal gate. -/
def accept1 (a : Args1) (i : ℕ) : Bool :=
  !masked1 a i && !dummyReject1 a i && pos1Ok a i

/-- The correction pipeline (splitBBox.pyx lines 218-225): subtract dark,
then divide by flat, polarization and solid angle, in that order. -/
def corrected (dark flat polarization solidangle : Option (List ℚ))
    (i : ℕ) (w : ℚ) : ℚ :=
  let w1 := match dark with
    | some l => w - getQ l i
    | none => w
  let w2 := match flat with
    | some l => w1 / getQ l i
    | none => w1
  let w3 := match polarization with
    | some l => w2 / getQ l i
    | none => w2
  match solidangle with
  | some l => w3 / getQ l i
  | none => w3

/-- Lower fractional bin coordinate of pixel i in histoBBox1d (line 205). -/
def fmin1 (a : Args1) (i : ℕ) : ℚ :=
  get_bin_number (getQ a.pos0 i - getQ a.delta_pos0 i)
    (range1dOf a).pos0_min (range1dOf a).delta

/-- Upper fractional bin coordinate of pixel i in histoBBox1d (line 206). -/
def fmax1 (a : Args1) (i : ℕ) : ℚ :=
  get_bin_number (getQ a.pos0 i + getQ a.delta_pos0 i)
    (range1dOf a).pos0_min (range1dOf a).delta

/-- The unweighted histogram outCount of histoBBox1d after the accumulation
loop (splitBBox.pyx lines 190-248). -/
def outCount1 (a : Args1) : ℤ → ℚ := fun b =>
  ∑ i in Finset.range a.weights.length,
    if accept1 a i then contrib1d a.bins (fmin1 a i) (fmax1 a i) b else 0

/-- The weighted histogram outData of histoBBox1d after the accumulation
loop: every bin receives the corrected weight times the same fraction that
is added to outCount. -/
def outData1 (a : Args1) : ℤ → ℚ := fun b =>
  ∑ i in Finset.range a.weights.length,
    if accept1 a i then
      corrected a.dark a.flat a.polarization a.solidangle i (getQ a.weights i)
        * contrib1d a.bins (fmin1 a i) (fmax1 a i) b
    else 0

/-- The empty-bin guard of both histograms (epsilon = 1e-10). -/
def epsilonQ : ℚ := 1 / 10000000000

/-- The merged histogram of histoBBox1d (splitBBox.pyx lines 250-254). -/
def outMerge1 (a : Args1) : ℤ → ℚ := fun b =>
  if epsilonQ < outCount1 a b then
    outData1 a b / outCount1 a b / a.normalization_factor
  else cdummy1 a

/-- The values histoBBox1d returns: the two ends of the bin-center ramp,
and the three histograms (splitBBox.pyx lines 256-258). -/
structure Result1 where
  edges_lo : ℚ
  edges_hi : ℚ
  outMerge : ℤ → ℚ
  outData : ℤ → ℚ
  outCount : ℤ → ℚ
  rng : Range1

/-- The full histoBBox1d computation, meaningful when valid1d holds (an
assertion failure aborts the call before any computation otherwise). -/
def histoBBox1d (a : Args1) : Result1 :=
  { edges_lo := (range1dOf a).pos0_min + (range1dOf a).delta / 2
    edges_hi := (range1dOf a).pos0_maxin - (range1dOf a).delta / 2
    outMerge := outMerge1 a
    outData := outData1 a
    outCount := outCount1 a
    rng := range1dOf a }

/-- The arguments of histoBBox2d (splitBBox.pyx lines 264-282).  The bin
counts are taken after the tuple destructuring of line 319 but before the
clamping of lines 322-325; chiDiscAtPi and allow_pos0_neg are the two policy
flags; empty is a plain number (it defaults to 0.0 and is converted with
float()). -/
structure Args2 where
  weights : List ℚ
  pos0 : List ℚ
  delta_pos0 : List ℚ
  pos1 : List ℚ
  delta_pos1 : List ℚ
  bins0 : ℤ
  bins1 : ℤ
  pos0Range : Option (ℚ × ℚ)
  pos1Range : Option (ℚ × ℚ)
  dummy : Option ℚ
  delta_dummy : Option ℚ
  mask : Option (List Bool)
  dark : Option (List ℚ)
  flat : Option (List ℚ)
  solidangle : Option (List ℚ)
  polarization : Option (List ℚ)
  allow_pos0_neg : Bool
  chiDiscAtPi : Bool
  empty : ℚ
  normalization_factor : ℚ

/-- The assertions at the entry of histoBBox2d (splitBBox.pyx lines 314-317,
355-384): every auxiliary array must match the pixel count.  There is no
assertion on the bin counts. -/
def valid2d (a : Args2) : Bool :=
  let n := a.weights.length
  (a.pos0.length == n) && (a.pos1.length == n) &&
  (a.delta_pos0.length == n) && (a.delta_pos1.length == n) &&
  (match a.mask with
   | some m => m.length == n
   | none => true) &&
  sizeOk a.dark n && sizeOk a.flat n && sizeOk a.polarization n &&
  sizeOk a.solidangle n

/-- The resolved radial bin count of histoBBox2d (lines 322-323): requests
of at most 0 are clamped up to 1. -/
def binsR0 (a : Args2) : ℕ := (if a.bins0 ≤ 0 then 1 else a.bins0).toNat

/-- The resolved azimuthal bin count of histoBBox2d (lines 324-325). -/
def binsR1 (a : Args2) : ℕ := (if a.bins1 ≤ 0 then 1 else a.bins1).toNat

def masked2 (a : Args2) (i : ℕ) : Bool :=
  match a.mask with
  | some m => m.getD i false
  | none => false

/-- Lower clamp bound of the azimuthal scan of histoBBox2d (line 407):
(-chiDiscAtPi) * pi, i.e. -pi when the discontinuity sits at pi and 0 when
it sits at 0.  piQ is the rational standing in for the float constant pi of
regrid_common.pxi, which is not under the sources; every theorem holds for
an arbitrary value of it. -/
def chiLo (piQ : ℚ) (a : Args2) : ℚ := (if a.chiDiscAtPi then -1 else 0) * piQ

/-- Upper clamp bound of the azimuthal scan of histoBBox2d (line 405):
(2 - chiDiscAtPi) * pi. -/
def chiHi (piQ : ℚ) (a : Args2) : ℚ := (if a.chiDiscAtPi then 1 else 2) * piQ

/-- First scan pass of histoBBox2d along axis 0 (splitBBox.pyx lines
386-420): running minimum of the lower pixel bounds over unmasked pixels,
seeded with the center coordinate of pixel 0 before the mask is consulted.
The allow_pos0_neg clamp of line 403 assigns to a variable (lower0) that is
never declared nor read again, so it does not affect min0. -/
def scanMin0_2d (a : Args2) : ℚ :=
  (List.range a.weights.length).foldl
    (fun acc i => if masked2 a i then acc
      else if getQ a.pos0 i - getQ a.delta_pos0 i < acc then
        getQ a.pos0 i - getQ a.delta_pos0 i
      else acc)
    (getQ a.pos0 0)

/-- Axis-0 scan maximum of histoBBox2d, seeded with pixel 0's center. -/
def scanMax0_2d (a : Args2) : ℚ :=
  (List.range a.weights.length).foldl
    (fun acc i => if masked2 a i then acc
      else if acc < getQ a.pos0 i + getQ a.delta_pos0 i then
        getQ a.pos0 i + getQ a.delta_pos0 i
      else acc)
    (getQ a.pos0 0)

/-- The azimuthal lower bound of pixel i as clamped inside the scan loop of
histoBBox2d (lines 401, 407-408). -/
def pos1LowerClamped (piQ : ℚ) (a : Args2) (i : ℕ) : ℚ :=
  if getQ a.pos1 i - getQ a.delta_pos1 i < chiLo piQ a then chiLo piQ a
  else getQ a.pos1 i - getQ a.delta_pos1 i

/-- The azimuthal upper bound of pixel i as clamped inside the scan loop of
histoBBox2d (lines 402, 405-406). -/
def pos1UpperClamped (piQ : ℚ) (a : Args2) (i : ℕ) : ℚ :=
  if chiHi piQ a < getQ a.pos1 i + getQ a.delta_pos1 i then chiHi piQ a
  else getQ a.pos1 i + getQ a.delta_pos1 i

/-- Axis-1 scan minimum of histoBBox2d, over chi-clamped pixel bounds,
seeded with pixel 0's (unclamped) center coordinate. -/
def scanMin1_2d (piQ : ℚ) (a : Args2) : ℚ :=
  (List.range a.weights.length).foldl
    (fun acc i => if masked2 a i then acc
      else if pos1LowerClamped piQ a i < acc then pos1LowerClamped piQ a i
      else acc)
    (getQ a.pos1 0)

/-- Axis-1 scan maximum of histoBBox2d. -/
def scanMax1_2d (piQ : ℚ) (a : Args2) : ℚ :=
  (List.range a.weights.length).foldl
    (fun acc i => if masked2 a i then acc
      else if acc < pos1UpperClamped piQ a i then pos1UpperClamped piQ a i
      else acc)
    (getQ a.pos1 0)

/-- The resolved ranges of histoBBox2d: per axis, the resolved minimum, the
user-visible maximum, the rounded maximum and the bin width. -/
structure Range2 where
  pos0_min : ℚ
  pos0_maxin : ℚ
  pos0_max : ℚ
  delta0 : ℚ
  pos1_min : ℚ
  pos1_maxin : ℚ
  pos1_max : ℚ
  delta1 : ℚ

/-- Range resolution of histoBBox2d (splitBBox.pyx lines 422-441): user
ranges override the scanned bounds per axis, then (unless allow_pos0_neg) a
negative axis-0 minimum is clamped to 0, then both upper bounds are rounded
outward and the bin widths derived from the clamped bin counts. -/
def range2dOf (piQ : ℚ) (a : Args2) : Range2 :=
  let p0min0 := match a.pos0Range with
    | some r => minQ r.1 r.2
    | none => scanMin0_2d a
  let p0maxin := match a.pos0Range with
    | some r => maxQ r.1 r.2
    | none => scanMax0_2d a
  let p1min := match a.pos1Range with
    | some r => minQ r.1 r.2
    | none => scanMin1_2d piQ a
  let p1maxin := match a.pos1Range with
    | some r => maxQ r.1 r.2
    | none => scanMax1_2d piQ a
  let p0min := if (!a.allow_pos0_neg) && decide (p0min0 < 0) then 0 else p0min0
  let p0max := calc_upper_bound p0maxin
  let p1max := calc_upper_bound p1maxin
  { pos0_min := p0min, pos0_maxin := p0maxin, pos0_max := p0max
    delta0 := (p0max - p0min) / (binsR0 a : ℚ)
    pos1_min := p1min, pos1_maxin := p1maxin, pos1_max := p1max
    delta1 := (p1max - p1min) / (binsR1 a : ℚ) }

/-- The dummy flag of histoBBox2d (splitBBox.pyx lines 360-367): the pixel
test is armed only when BOTH dummy and delta_dummy are supplied; the branch
taking a dummy without a delta_dummy sets the dummy fill value but never
sets check_dummy. -/
def check_dummy2 (a : Args2) : Bool := a.dummy.isSome && a.delta_dummy.isSome

/-- The fill value cdummy of histoBBox2d: the dummy when given, else the
empty value. -/
def cdummy2 (a : Args2) : ℚ :=
  match a.dummy with
  | some d => d
  | none => a.empty

/-- The tolerance ddummy of histoBBox2d; when delta_dummy is missing the C
variable is left uninitialized but is also never read (check_dummy2 is
false), so any value is faithful here. -/
def ddummy2 (a : Args2) : ℚ :=
  match a.dummy, a.delta_dummy with
  | some _, some dd => dd
  | _, _ => 0

/-- The dummy test of histoBBox2d (splitBBox.pyx line 449), on the raw
weight. -/
def dummyReject2 (a : Args2) (i : ℕ) : Bool :=
  check_dummy2 a && decide (absQ (getQ a.weights i - cdummy2 a) ≤ ddummy2 a)

/-- A pixel enters the accumulation of histoBBox2d iff it is unmasked and
not dummy-rejected. -/
def accept2 (a : Args2) (i : ℕ) : Bool :=
  !masked2 a i && !dummyReject2 a i

/-- The additions of one pixel of histoBBox2d to outCount (splitBBox.pyx
lines 461-560): the axis-0 bounds come from the scan arrays (center plus or
minus half-width for an unmasked pixel), the axis-1 bounds are recomputed
without the chi clamp; the pixel is skipped when its box misses the
rectangle [pos0_min, pos0_maxin] x [pos1_min, pos1_maxin], otherwise the box
is clipped to that rectangle and split over the touched bins. -/
def pixelContrib2d (r : Range2) (c0 d0 c1 d1 : ℚ) : ℤ → ℤ → ℚ := fun i j =>
  if c0 + d0 < r.pos0_min ∨ c1 + d1 < r.pos1_min ∨ c0 - d0 > r.pos0_maxin
      ∨ c1 - d1 > r.pos1_maxin then 0
  else
    contrib2d
      (get_bin_number (if c0 - d0 < r.pos0_min then r.pos0_min else c0 - d0)
        r.pos0_min r.delta0)
      (get_bin_number (if c0 + d0 > r.pos0_maxin then r.pos0_maxin else c0 + d0)
        r.pos0_min r.delta0)
      (get_bin_number (if c1 - d1 < r.pos1_min then r.pos1_min else c1 - d1)
        r.pos1_min r.delta1)
      (get_bin_number (if c1 + d1 > r.pos1_maxin then r.pos1_maxin else c1 + d1)
        r.pos1_min r.delta1) i j

/-- The unweighted histogram outCount of histoBBox2d after the accumulation
loop (splitBBox.pyx lines 443-560), as a function of the two bin indices
(axis 0 first, as accumulated internally). -/
def outCount2 (piQ : ℚ) (a : Args2) : ℤ → ℤ → ℚ := fun i j =>
  ∑ k in Finset.range a.weights.length,
    if accept2 a k then
      pixelContrib2d (range2dOf piQ a) (getQ a.pos0 k) (getQ a.delta_pos0 k)
        (getQ a.pos1 k) (getQ a.delta_pos1 k) i j
    else 0

/-- The weighted histogram outData of histoBBox2d: the corrected weight
times the same fractions as outCount. -/
def outData2 (piQ : ℚ) (a : Args2) : ℤ → ℤ → ℚ := fun i j =>
  ∑ k in Finset.range a.weights.length,
    if accept2 a k then
      corrected a.dark a.flat a.polarization a.solidangle k (getQ a.weights k)
        * pixelContrib2d (range2dOf piQ a) (getQ a.pos0 k) (getQ a.delta_pos0 k)
            (getQ a.pos1 k) (getQ a.delta_pos1 k) i j
    else 0

/-- The merged histogram of histoBBox2d (splitBBox.pyx lines 562-567). -/
def outMerge2 (piQ : ℚ) (a : Args2) : ℤ → ℤ → ℚ := fun i j =>
  if epsilonQ < outCount2 piQ a i j then
    outData2 piQ a i j / outCount2 piQ a i j / a.normalization_factor
  else cdummy2 a

/-- Materialise an r x c matrix given as a function into row-major nested
lists, the shape numpy arrays take on return. -/
def toLists (m : ℤ → ℤ → ℚ) (r c : ℕ) : List (List ℚ) :=
  (List.range r).map fun i : ℕ =>
    (List.range c).map fun j : ℕ => m (i : ℤ) (j : ℤ)

/-- The values histoBBox2d returns (splitBBox.pyx lines 569-575): the three
histograms are transposed on return, so a row index runs over axis 1
(azimuth) and a column index over axis 0 (radial). -/
structure Result2 where
  retMerge : List (List ℚ)
  edges0_lo : ℚ
  edges0_hi : ℚ
  edges1_lo : ℚ
  edges1_hi : ℚ
  retData : List (List ℚ)
  retCount : List (List ℚ)
  bins0 : ℕ
  bins1 : ℕ
  rng : Range2

/-- The full histoBBox2d computation, meaningful when valid2d holds. -/
def histoBBox2d (piQ : ℚ) (a : Args2) : Result2 :=
  { retMerge := toLists (fun j i => outMerge2 piQ a i j) (binsR1 a) (binsR0 a)
    edges0_lo := (range2dOf piQ a).pos0_min + (range2dOf piQ a).delta0 / 2
    edges0_hi := (range2dOf piQ a).pos0_maxin - (range2dOf piQ a).delta0 / 2
    edges1_lo := (range2dOf piQ a).pos1_min + (range2dOf piQ a).delta1 / 2
    edges1_hi := (range2dOf piQ a).pos1_maxin - (range2dOf piQ a).delta1 / 2
    retData := toLists (fun j i => outData2 piQ a i j) (binsR1 a) (binsR0 a)
    retCount := toLists (fun j i => outCount2 piQ a i j) (binsR1 a) (binsR0 a)
    bins0 := binsR0 a
    bins1 := binsR1 a
    rng := range2dOf piQ a }

/-- From the spec's words (section 3, Invariants), for comparison with the
code: the fraction of a pixel footprint [min0, max0] that overlaps the
active range [lo, hi] (1 when fully inside, less when clipped, 0 when fully
outside). -/
def specOverlapFrac (lo hi min0 max0 : ℚ) : ℚ :=
  (maxQ 0 (minQ max0 hi - maxQ min0 lo)) / (max0 - min0)

/-- From the spec's words: the value the spec claims for the total of
outCount over all bins, namely the sum of the overlap fractions of all
accepted pixels. -/
def specOverlapTotal (a : Args1) : ℚ :=
  ∑ i in Finset.range a.weights.length,
    if accept1 a i then
      specOverlapFrac (range1dOf a).pos0_min (range1dOf a).pos0_max
        (getQ a.pos0 i - getQ a.delta_pos0 i)
        (getQ a.pos0 i + getQ a.delta_pos0 i)
    else 0

/-- A concrete rational standing in for the float constant pi.  The
azimuthal scan is bypassed in every concrete 2D input below because explicit
ranges are supplied, so its value is irrelevant there. -/
def piC : ℚ := 355 / 113

/-- The concrete split scenario of the spec: one pixel of weight 100 at
pos0 = 1 with half-width 0.6, two bins over the range [0, 2]. -/
def argsC8 : Args1 :=
  { weights := [100], pos0 := [1], delta_pos0 := [3/5]
    pos1 := none, delta_pos1 := none, bins := 2
    pos0Range := some (0, 2), pos1Range := none
    dummy := none, delta_dummy := none, mask := none
    dark := none, flat := none, solidangle := none, polarization := none
    empty := none, normalization_factor := 1 }

/-- A single pixel whose footprint [-1/2, 1/2] is clipped by the range
[0, 2]: half its width lies outside the active range. -/
def argsC2 : Args1 :=
  { weights := [1], pos0 := [0], delta_pos0 := [1/2]
    pos1 := none, delta_pos1 := none, bins := 2
    pos0Range := some (0, 2), pos1Range := none
    dummy := none, delta_dummy := none, mask := none
    dark := none, flat := none, solidangle := none, polarization := none
    empty := none, normalization_factor := 1 }

/-- A 2D call with dummy = 5 supplied but no delta_dummy, and a single pixel
whose raw weight equals the dummy value exactly. -/
def argsC3 : Args2 :=
  { weights := [5], pos0 := [1], delta_pos0 := [0]
    pos1 := [0], delta_pos1 := [0], bins0 := 1, bins1 := 1
    pos0Range := some (0, 2), pos1Range := some (-1, 1)
    dummy := some 5, delta_dummy := none, mask := none
    dark := none, flat := none, solidangle := none, polarization := none
    allow_pos0_neg := false, chiDiscAtPi := true
    empty := 0, normalization_factor := 1 }

/-- The 1D twin of argsC3: same pixel, same dummy = 5 without delta_dummy. -/
def argsC3b : Args1 :=
  { weights := [5], pos0 := [1], delta_pos0 := [0]
    pos1 := none, delta_pos1 := none, bins := 2
    pos0Range := some (0, 2), pos1Range := none
    dummy := some 5, delta_dummy := none, mask := none
    dark := none, flat := none, solidangle := none, polarization := none
    empty := none, normalization_factor := 1 }

/-- A structurally valid 1D call asking for zero bins. -/
def argsC4 : Args1 :=
  { weights := [1], pos0 := [1], delta_pos0 := [0]
    pos1 := none, delta_pos1 := none, bins := 0
    pos0Range := some (0, 2), pos1Range := none
    dummy := none, delta_dummy := none, mask := none
    dark := none, flat := none, solidangle := none, polarization := none
    empty := none, normalization_factor := 1 }

/-- A 2D call asking for a negative radial bin count. -/
def argsC4w : Args2 :=
  { weights := [1], pos0 := [1], delta_pos0 := [0]
    pos1 := [0], delta_pos1 := [0], bins0 := -3, bins1 := 5
    pos0Range := some (0, 2), pos1Range := some (-1, 1)
    dummy := none, delta_dummy := none, mask := none
    dark := none, flat := none, solidangle := none, polarization := none
    allow_pos0_neg := false, chiDiscAtPi := true
    empty := 0, normalization_factor := 1 }

/-- A 1D call whose explicit pos0Range has a negative minimum. -/
def argsC5 : Args1 :=
  { weights := [1], pos0 := [1], delta_pos0 := [0]
    pos1 := none, delta_pos1 := none, bins := 2
    pos0Range := some (-1, 2), pos1Range := none
    dummy := none, delta_dummy := none, mask := none
    dark := none, flat := none, solidangle := none, polarization := none
    empty := none, normalization_factor := 1 }

/-- A 2D call with 2 radial and 3 azimuthal bins and one interior pixel. -/
def argsC7 : Args2 :=
  { weights := [1], pos0 := [1], delta_pos0 := [0]
    pos1 := [0], delta_pos1 := [0], bins0 := 2, bins1 := 3
    pos0Range := some (0, 2), pos1Range := some (-1, 1)
    dummy := none, delta_dummy := none, mask := none
    dark := none, flat := none, solidangle := none, polarization := none
    allow_pos0_neg := false, chiDiscAtPi := true
    empty := 0, normalization_factor := 1 }

/-- A 1D call whose only pixel is masked and has a negative center, with no
user range. -/
def argsC10 : Args1 :=
  { weights := [1], pos0 := [-1], delta_pos0 := [0]
    pos1 := none, delta_pos1 := none, bins := 2
    pos0Range := none, pos1Range := none
    dummy := none, delta_dummy := none, mask := some [true]
    dark := none, flat := none, solidangle := none, polarization := none
    empty := none, normalization_factor := 1 }

/-- The all-masked twin of argsC10 with a nonnegative first center. -/
def argsC10w : Args1 :=
  { weights := [1], pos0 := [1], delta_pos0 := [0]
    pos1 := none, delta_pos1 := none, bins := 2
    pos0Range := none, pos1Range := none
    dummy := none, delta_dummy := none, mask := some [true]
    dark := none, flat := none, solidangle := none, polarization := none
    empty := none, normalization_factor := 1 }



lemma cInt_of_nonneg {q : ℚ} (h : 0 ≤ q) : cInt q = ⌊q⌋ :=
  if_neg (not_lt.mpr h)

lemma lt_of_le_of_cInt_ne {x y : ℚ} (hle : x ≤ y) (hne : cInt x ≠ cInt y) : x < y :=
  lt_of_le_of_ne hle (fun h => hne (by rw [h]))

/-- Summing an indicator of a single point over an initial segment of ℤ. -/
lemma sum_indicator_Ico (n a : ℤ) (d : ℚ) (h0 : 0 ≤ a) (hn : a < n) :
    (∑ x in Finset.Ico (0 : ℤ) n, if x = a then d else 0) = d := by
  rw [Finset.sum_ite_eq' (Finset.Ico (0 : ℤ) n) a fun _ => d]
  rw [if_pos (Finset.mem_Ico.mpr ⟨h0, hn⟩)]

/-- Summing a constant over the indices of a band inside an initial segment
of ℤ. -/
lemma sum_band_Ico (n a b : ℤ) (d : ℚ) (h0 : 0 ≤ a) (hn : b ≤ n) (hab : a ≤ b) :
    (∑ x in Finset.Ico (0 : ℤ) n, if a ≤ x ∧ x < b then d else 0)
      = ((b - a : ℤ) : ℚ) * d := by
  have h2 : (∑ x in Finset.Ico (0 : ℤ) n, if a ≤ x ∧ x < b then d else 0)
      = ∑ x in Finset.Ico (0 : ℤ) n, if x ∈ Finset.Ico a b then d else 0 :=
    Finset.sum_congr rfl (fun x _ => by simp only [Finset.mem_Ico])
  rw [h2, Finset.sum_ite_mem]
  have h3 : Finset.Ico (0 : ℤ) n ∩ Finset.Ico a b = Finset.Ico a b := by
    apply Finset.inter_eq_right.mpr
    intro x hx
    rw [Finset.mem_Ico] at hx ⊢
    exact ⟨le_trans h0 hx.1, lt_of_lt_of_le hx.2 hn⟩
  rw [h3, Finset.sum_const, Int.card_Ico, nsmul_eq_mul]
  congr 1
  exact_mod_cast congrArg (fun z : ℤ => (z : ℚ)) (Int.toNat_of_nonneg (by omega))

/-- For a pixel that is not skipped, the two bin indices of histoBBox1d lie
inside [0, bins) and are ordered. -/
lemma contrib1d_bins_mem (bins : ℕ) (fmin fmax : ℚ) (hb : 1 ≤ bins)
    (hle : fmin ≤ fmax) (h1 : ¬(fmax < 0 ∨ (bins : ℚ) ≤ fmin)) :
    0 ≤ bin0_minOf fmin ∧ bin0_minOf fmin ≤ bin0_maxOf bins fmax ∧
      bin0_maxOf bins fmax < (bins : ℤ) := by
  push_neg at h1
  obtain ⟨hfx, hfn⟩ := h1
  have hbz : (1 : ℤ) ≤ (bins : ℤ) := by exact_mod_cast hb
  by_cases hneg : fmin < 0
  · by_cases hge : (bins : ℚ) ≤ fmax
    · refine ⟨?_, ?_, ?_⟩ <;> simp only [bin0_minOf, bin0_maxOf, if_pos hneg, if_pos hge] <;> omega
    · have h0f : (0 : ℤ) ≤ ⌊fmax⌋ := Int.floor_nonneg.mpr hfx
      have hfb : ⌊fmax⌋ < (bins : ℤ) := Int.floor_lt.mpr (by push_neg at hge; exact_mod_cast hge)
      refine ⟨?_, ?_, ?_⟩ <;>
        simp only [bin0_minOf, bin0_maxOf, if_pos hneg, if_neg hge,
          cInt_of_nonneg hfx] <;> omega
  · push_neg at hneg
    have h0m : (0 : ℤ) ≤ ⌊fmin⌋ := Int.floor_nonneg.mpr hneg
    have hmb : ⌊fmin⌋ < (bins : ℤ) := Int.floor_lt.mpr (by exact_mod_cast hfn)
    by_cases hge : (bins : ℚ) ≤ fmax
    · refine ⟨?_, ?_, ?_⟩ <;>
        simp only [bin0_minOf, bin0_maxOf, if_neg (not_lt.mpr hneg), if_pos hge,
          cInt_of_nonneg hneg] <;> omega
    · have hmono : ⌊fmin⌋ ≤ ⌊fmax⌋ := Int.floor_mono hle
      have hfb : ⌊fmax⌋ < (bins : ℤ) := Int.floor_lt.mpr (by push_neg at hge; exact_mod_cast hge)
      refine ⟨?_, ?_, ?_⟩ <;>
        simp only [bin0_minOf, bin0_maxOf, if_neg (not_lt.mpr hneg), if_neg hge,
          cInt_of_nonneg hneg, cInt_of_nonneg (le_trans hneg hle)] <;> omega

/-- A zero-width footprint that is not skipped lands in the single-bin branch
of histoBBox1d. -/
lemma single_bin_of_zero_width (bins : ℕ) (f : ℚ)
    (h1 : ¬(f < 0 ∨ (bins : ℚ) ≤ f)) :
    bin0_minOf f = bin0_maxOf bins f := by
  push_neg at h1
  rw [bin0_minOf, bin0_maxOf, if_neg (not_lt.mpr h1.1), if_neg (not_le.mpr h1.2)]

/-- In the split branch of histoBBox1d the fractional width is strictly
positive. -/
lemma split_width_pos (bins : ℕ) (fmin fmax : ℚ) (hle : fmin ≤ fmax)
    (h1 : ¬(fmax < 0 ∨ (bins : ℚ) ≤ fmin))
    (hne : bin0_minOf fmin ≠ bin0_maxOf bins fmax) : 0 < fmax - fmin := by
  rcases lt_or_eq_of_le hle with h | h
  · linarith
  · exfalso
    apply hne
    subst h
    exact single_bin_of_zero_width bins fmin h1

/-- The per-pixel count fractions of histoBBox1d are nonnegative. -/
lemma contrib1d_nonneg (bins : ℕ) (fmin fmax : ℚ) (hle : fmin ≤ fmax) (b : ℤ) :
    0 ≤ contrib1d bins fmin fmax b := by
  rw [contrib1d]
  by_cases hskip : fmax < 0 ∨ (bins : ℚ) ≤ fmin
  · rw [if_pos hskip]
  · rw [if_neg hskip]
    by_cases heq : bin0_minOf fmin = bin0_maxOf bins fmax
    · rw [if_pos heq]
      split <;> norm_num
    · rw [if_neg heq]
      have hpos : 0 < fmax - fmin := split_width_pos bins fmin fmax hle hskip heq
      have hA : 0 ≤ 1 / (fmax - fmin) := by positivity
      have hskip2 := hskip
      push_neg at hskip2
      have hL : 0 ≤ ((bin0_minOf fmin : ℚ) + 1) - fmin := by
        rw [bin0_minOf]
        by_cases hneg : fmin < 0
        · rw [if_pos hneg]; push_cast; linarith
        · push_neg at hneg
          rw [if_neg (not_lt.mpr hneg), cInt_of_nonneg hneg]
          have := Int.lt_floor_add_one fmin
          linarith
      have hR : 0 ≤ fmax - (bin0_maxOf bins fmax : ℚ) := by
        rw [bin0_maxOf]
        by_cases hge : (bins : ℚ) ≤ fmax
        · rw [if_pos hge]; push_cast; linarith
        · rw [if_neg hge, cInt_of_nonneg hskip2.1]
          have := Int.floor_le fmax
          linarith
      have t1 : 0 ≤ (if b = bin0_minOf fmin then
          (1 / (fmax - fmin)) * (((bin0_minOf fmin : ℚ) + 1) - fmin) else 0) := by
        split
        · exact mul_nonneg hA hL
        · exact le_refl 0
      have t2 : 0 ≤ (if b = bin0_maxOf bins fmax then
          (1 / (fmax - fmin)) * (fmax - (bin0_maxOf bins fmax : ℚ)) else 0) := by
        split
        · exact mul_nonneg hA hR
        · exact le_refl 0
      have t3 : 0 ≤ (if bin0_minOf fmin + 1 ≤ b ∧ b < bin0_maxOf bins fmax then
          (1 / (fmax - fmin)) else 0) := by
        split
        · exact hA
        · exact le_refl 0
      linarith

/-- Total count mass a non-excluded pixel adds across all bins of
histoBBox1d: exactly 1 when it touches the bin range at all (even when
clipped), 0 when it lies entirely outside. -/
lemma contrib1d_total (bins : ℕ) (fmin fmax : ℚ) (hb : 1 ≤ bins)
    (hle : fmin ≤ fmax) :
    (∑ b in Finset.Ico (0 : ℤ) (bins : ℤ), contrib1d bins fmin fmax b)
      = if fmax < 0 ∨ (bins : ℚ) ≤ fmin then 0 else 1 := by
  by_cases hskip : fmax < 0 ∨ (bins : ℚ) ≤ fmin
  · rw [if_pos hskip]
    apply Finset.sum_eq_zero
    intro b _
    rw [contrib1d, if_pos hskip]
  · rw [if_neg hskip]
    obtain ⟨hm0, hmm, hmb⟩ := contrib1d_bins_mem bins fmin fmax hb hle hskip
    by_cases heq : bin0_minOf fmin = bin0_maxOf bins fmax
    · have h2 : (∑ b in Finset.Ico (0 : ℤ) (bins : ℤ), contrib1d bins fmin fmax b)
          = ∑ b in Finset.Ico (0 : ℤ) (bins : ℤ),
              (if b = bin0_minOf fmin then (1 : ℚ) else 0) :=
        Finset.sum_congr rfl (fun b _ => by rw [contrib1d, if_neg hskip, if_pos heq])
      rw [h2, sum_indicator_Ico _ _ _ hm0 (lt_of_le_of_lt hmm hmb)]
    · have hpos : 0 < fmax - fmin := split_width_pos bins fmin fmax hle hskip heq
      have hlt : bin0_minOf fmin < bin0_maxOf bins fmax := lt_of_le_of_ne hmm heq
      have h2 : (∑ b in Finset.Ico (0 : ℤ) (bins : ℤ), contrib1d bins fmin fmax b)
          = ∑ b in Finset.Ico (0 : ℤ) (bins : ℤ),
            ((if b = bin0_minOf fmin then
                (1 / (fmax - fmin)) * (((bin0_minOf fmin : ℚ) + 1) - fmin) else 0)
            + (if b = bin0_maxOf bins fmax then
                (1 / (fmax - fmin)) * (fmax - (bin0_maxOf bins fmax : ℚ)) else 0)
            + (if bin0_minOf fmin + 1 ≤ b ∧ b < bin0_maxOf bins fmax then
                (1 / (fmax - fmin)) else 0)) :=
        Finset.sum_congr rfl (fun b _ => by rw [contrib1d, if_neg hskip, if_neg heq])
      rw [h2, Finset.sum_add_distrib, Finset.sum_add_distrib,
        sum_indicator_Ico _ _ _ hm0 (lt_of_le_of_lt hmm hmb),
        sum_indicator_Ico _ _ _ (le_trans hm0 hmm) hmb,
        sum_band_Ico _ _ _ _ (by omega) (by omega) (by omega)]
      have hne : fmax - fmin ≠ 0 := ne_of_gt hpos
      field_simp
      ring


/-- A double sum of a rectangular indicator with a constant value factors
into the product of two one-dimensional indicator sums. -/
lemma sum2_prod (n0 n1 : ℤ) (p q : ℤ → Prop) [DecidablePred p] [DecidablePred q]
    (d : ℚ) :
    (∑ i in Finset.Ico (0 : ℤ) n0, ∑ j in Finset.Ico (0 : ℤ) n1,
        if p i ∧ q j then d else 0)
      = (∑ i in Finset.Ico (0 : ℤ) n0, if p i then (1 : ℚ) else 0)
        * ((∑ j in Finset.Ico (0 : ℤ) n1, if q j then (1 : ℚ) else 0) * d) := by
  rw [Finset.sum_mul]
  apply Finset.sum_congr rfl
  intro i _
  by_cases hp : p i
  · rw [if_pos hp, one_mul, Finset.sum_mul]
    apply Finset.sum_congr rfl
    intro j _
    by_cases hq : q j
    · rw [if_pos ⟨hp, hq⟩, if_pos hq, one_mul]
    · rw [if_neg (fun h => hq h.2), if_neg hq, zero_mul]
  · rw [if_neg hp, zero_mul]
    apply Finset.sum_eq_zero
    intro j _
    exact if_neg (fun h => hp h.1)

lemma sum_indicator1 (n a : ℤ) (h0 : 0 ≤ a) (hn : a < n) :
    (∑ x in Finset.Ico (0 : ℤ) n, if x = a then (1 : ℚ) else 0) = 1 :=
  sum_indicator_Ico n a 1 h0 hn

lemma sum_band1 (n a b : ℤ) (h0 : 0 ≤ a) (hn : b ≤ n) (hab : a ≤ b) :
    (∑ x in Finset.Ico (0 : ℤ) n, if a ≤ x ∧ x < b then (1 : ℚ) else 0)
      = ((b - a : ℤ) : ℚ) := by
  rw [sum_band_Ico n a b 1 h0 hn hab, mul_one]

lemma sum2_ee (n0 n1 a c : ℤ) (d : ℚ) (h0 : 0 ≤ a) (hn : a < n0)
    (h1 : 0 ≤ c) (hm : c < n1) :
    (∑ i in Finset.Ico (0 : ℤ) n0, ∑ j in Finset.Ico (0 : ℤ) n1,
        if i = a ∧ j = c then d else 0) = d := by
  rw [sum2_prod n0 n1 (fun i => i = a) (fun j => j = c) d,
    sum_indicator1 n0 a h0 hn, sum_indicator1 n1 c h1 hm, one_mul, one_mul]

lemma sum2_eb (n0 n1 a c cb : ℤ) (d : ℚ) (h0 : 0 ≤ a) (hn : a < n0)
    (h1 : 0 ≤ c) (hm : cb ≤ n1) (hc : c ≤ cb) :
    (∑ i in Finset.Ico (0 : ℤ) n0, ∑ j in Finset.Ico (0 : ℤ) n1,
        if i = a ∧ (c ≤ j ∧ j < cb) then d else 0) = ((cb - c : ℤ) : ℚ) * d := by
  rw [sum2_prod n0 n1 (fun i => i = a) (fun j => c ≤ j ∧ j < cb) d,
    sum_indicator1 n0 a h0 hn, sum_band1 n1 c cb h1 hm hc, one_mul]

lemma sum2_be (n0 n1 c cb a : ℤ) (d : ℚ) (h0 : 0 ≤ c) (hn : cb ≤ n0) (hc : c ≤ cb)
    (h1 : 0 ≤ a) (hm : a < n1) :
    (∑ i in Finset.Ico (0 : ℤ) n0, ∑ j in Finset.Ico (0 : ℤ) n1,
        if (c ≤ i ∧ i < cb) ∧ j = a then d else 0) = ((cb - c : ℤ) : ℚ) * d := by
  rw [sum2_prod n0 n1 (fun i => c ≤ i ∧ i < cb) (fun j => j = a) d,
    sum_band1 n0 c cb h0 hn hc, sum_indicator1 n1 a h1 hm, one_mul]

lemma sum2_bb (n0 n1 c0 cb0 c1 cb1 : ℤ) (d : ℚ)
    (h0 : 0 ≤ c0) (hn : cb0 ≤ n0) (hc : c0 ≤ cb0)
    (h1 : 0 ≤ c1) (hm : cb1 ≤ n1) (hd : c1 ≤ cb1) :
    (∑ i in Finset.Ico (0 : ℤ) n0, ∑ j in Finset.Ico (0 : ℤ) n1,
        if (c0 ≤ i ∧ i < cb0) ∧ (c1 ≤ j ∧ j < cb1) then d else 0)
      = ((cb0 - c0 : ℤ) : ℚ) * (((cb1 - c1 : ℤ) : ℚ) * d) := by
  rw [sum2_prod n0 n1 (fun i => c0 ≤ i ∧ i < cb0) (fun j => c1 ≤ j ∧ j < cb1) d,
    sum_band1 n0 c0 cb0 h0 hn hc, sum_band1 n1 c1 cb1 h1 hm hd]

/-- Conservation for a pixel of histoBBox2d whose clipped fractional
footprint lies inside [0, n0) x [0, n1): the fractions written across all
bins sum to exactly 1 in all four structural cases. -/
lemma contrib2d_total (n0 n1 : ℤ) (f0min f0max f1min f1max : ℚ)
    (h00 : 0 ≤ f0min) (h0le : f0min ≤ f0max) (h0b : f0max < (n0 : ℚ))
    (h10 : 0 ≤ f1min) (h1le : f1min ≤ f1max) (h1b : f1max < (n1 : ℚ)) :
    (∑ i in Finset.Ico (0 : ℤ) n0, ∑ j in Finset.Ico (0 : ℤ) n1,
        contrib2d f0min f0max f1min f1max i j) = 1 := by
  have hb00 : (0 : ℤ) ≤ cInt f0min := by
    rw [cInt_of_nonneg h00]; exact Int.floor_nonneg.mpr h00
  have hb0m : cInt f0min ≤ cInt f0max := by
    rw [cInt_of_nonneg h00, cInt_of_nonneg (le_trans h00 h0le)]
    exact Int.floor_mono h0le
  have hb0x : cInt f0max < n0 := by
    rw [cInt_of_nonneg (le_trans h00 h0le)]; exact Int.floor_lt.mpr h0b
  have hb10 : (0 : ℤ) ≤ cInt f1min := by
    rw [cInt_of_nonneg h10]; exact Int.floor_nonneg.mpr h10
  have hb1m : cInt f1min ≤ cInt f1max := by
    rw [cInt_of_nonneg h10, cInt_of_nonneg (le_trans h10 h1le)]
    exact Int.floor_mono h1le
  have hb1x : cInt f1max < n1 := by
    rw [cInt_of_nonneg (le_trans h10 h1le)]; exact Int.floor_lt.mpr h1b
  by_cases hc0 : cInt f0min = cInt f0max
  · by_cases hc1 : cInt f1min = cInt f1max
    · have h2 : (∑ i in Finset.Ico (0 : ℤ) n0, ∑ j in Finset.Ico (0 : ℤ) n1,
          contrib2d f0min f0max f1min f1max i j)
          = ∑ i in Finset.Ico (0 : ℤ) n0, ∑ j in Finset.Ico (0 : ℤ) n1,
              (if i = cInt f0min ∧ j = cInt f1min then (1 : ℚ) else 0) :=
        Finset.sum_congr rfl (fun i _ => Finset.sum_congr rfl (fun j _ => by
          simp only [contrib2d]; rw [if_pos hc0, if_pos hc1]))
      rw [h2, sum2_ee n0 n1 _ _ 1 hb00 (lt_of_le_of_lt hb0m hb0x) hb10
        (lt_of_le_of_lt hb1m hb1x)]
    · have h1lt : f1min < f1max := lt_of_le_of_cInt_ne h1le hc1
      have hd1 : f1max - f1min ≠ 0 := ne_of_gt (by linarith)
      have hblt : cInt f1min < cInt f1max := lt_of_le_of_ne hb1m hc1
      have h2 : (∑ i in Finset.Ico (0 : ℤ) n0, ∑ j in Finset.Ico (0 : ℤ) n1,
          contrib2d f0min f0max f1min f1max i j)
          = ∑ i in Finset.Ico (0 : ℤ) n0, ∑ j in Finset.Ico (0 : ℤ) n1,
            ((if i = cInt f0min ∧ j = cInt f1min then
                (1 / (f1max - f1min)) * (((cInt f1min : ℚ) + 1) - f1min) else 0)
            + (if i = cInt f0min ∧ j = cInt f1max then
                (1 / (f1max - f1min)) * (f1max - (cInt f1max : ℚ)) else 0)
            + (if i = cInt f0min ∧ (cInt f1min + 1 ≤ j ∧ j < cInt f1max) then
                (1 / (f1max - f1min)) else 0)) :=
        Finset.sum_congr rfl (fun i _ => Finset.sum_congr rfl (fun j _ => by
          simp only [contrib2d]; rw [if_pos hc0, if_neg hc1]))
      rw [h2]
      simp only [Finset.sum_add_distrib]
      rw [sum2_ee n0 n1 _ _ _ hb00 (lt_of_le_of_lt hb0m hb0x) hb10
          (lt_of_le_of_lt hb1m hb1x),
        sum2_ee n0 n1 _ _ _ hb00 (lt_of_le_of_lt hb0m hb0x)
          (le_trans hb10 hb1m) hb1x,
        sum2_eb n0 n1 _ _ _ _ hb00 (lt_of_le_of_lt hb0m hb0x) (by omega)
          (by omega) (by omega)]
      field_simp
      ring
  · have h0lt : f0min < f0max := lt_of_le_of_cInt_ne h0le hc0
    have hd0 : f0max - f0min ≠ 0 := ne_of_gt (by linarith)
    have hblt0 : cInt f0min < cInt f0max := lt_of_le_of_ne hb0m hc0
    by_cases hc1 : cInt f1min = cInt f1max
    · have h2 : (∑ i in Finset.Ico (0 : ℤ) n0, ∑ j in Finset.Ico (0 : ℤ) n1,
          contrib2d f0min f0max f1min f1max i j)
          = ∑ i in Finset.Ico (0 : ℤ) n0, ∑ j in Finset.Ico (0 : ℤ) n1,
            ((if i = cInt f0min ∧ j = cInt f1min then
                (1 / (f0max - f0min)) * (((cInt f0min : ℚ) + 1) - f0min) else 0)
            + (if i = cInt f0max ∧ j = cInt f1min then
                (1 / (f0max - f0min)) * (f0max - (cInt f0max : ℚ)) else 0)
            + (if (cInt f0min + 1 ≤ i ∧ i < cInt f0max) ∧ j = cInt f1min then
                (1 / (f0max - f0min)) else 0)) :=
        Finset.sum_congr rfl (fun i _ => Finset.sum_congr rfl (fun j _ => by
          simp only [contrib2d]; rw [if_neg hc0, if_pos hc1]))
      rw [h2]
      simp only [Finset.sum_add_distrib]
      rw [sum2_ee n0 n1 _ _ _ hb00 (lt_of_le_of_lt hb0m hb0x) hb10
          (lt_of_le_of_lt hb1m hb1x),
        sum2_ee n0 n1 _ _ _ (le_trans hb00 hb0m) hb0x hb10
          (lt_of_le_of_lt hb1m hb1x),
        sum2_be n0 n1 _ _ _ _ (by omega) (by omega) (by omega) hb10
          (lt_of_le_of_lt hb1m hb1x)]
      field_simp
      ring
    · have h1lt : f1min < f1max := lt_of_le_of_cInt_ne h1le hc1
      have hd1 : f1max - f1min ≠ 0 := ne_of_gt (by linarith)
      have hblt1 : cInt f1min < cInt f1max := lt_of_le_of_ne hb1m hc1
      have h2 : (∑ i in Finset.Ico (0 : ℤ) n0, ∑ j in Finset.Ico (0 : ℤ) n1,
          contrib2d f0min f0max f1min f1max i j)
          = ∑ i in Finset.Ico (0 : ℤ) n0, ∑ j in Finset.Ico (0 : ℤ) n1,
            ((if i = cInt f0min ∧ j = cInt f1min then
                (1 / ((f0max - f0min) * (f1max - f1min)))
                  * (((cInt f0min : ℚ) + 1) - f0min) * (((cInt f1min : ℚ) + 1) - f1min) else 0)
            + (if i = cInt f0min ∧ j = cInt f1max then
                (1 / ((f0max - f0min) * (f1max - f1min)))
                  * (((cInt f0min : ℚ) + 1) - f0min) * (f1max - (cInt f1max : ℚ)) else 0)
            + (if i = cInt f0max ∧ j = cInt f1min then
                (1 / ((f0max - f0min) * (f1max - f1min)))
                  * (f0max - (cInt f0max : ℚ)) * (((cInt f1min : ℚ) + 1) - f1min) else 0)
            + (if i = cInt f0max ∧ j = cInt f1max then
                (1 / ((f0max - f0min) * (f1max - f1min)))
                  * (f0max - (cInt f0max : ℚ)) * (f1max - (cInt f1max : ℚ)) else 0)
            + (if (cInt f0min + 1 ≤ i ∧ i < cInt f0max) ∧ j = cInt f1min then
                (1 / ((f0max - f0min) * (f1max - f1min))) * (((cInt f1min : ℚ) + 1) - f1min) else 0)
            + (if (cInt f0min + 1 ≤ i ∧ i < cInt f0max)
                  ∧ (cInt f1min + 1 ≤ j ∧ j < cInt f1max) then
                (1 / ((f0max - f0min) * (f1max - f1min))) else 0)
            + (if (cInt f0min + 1 ≤ i ∧ i < cInt f0max) ∧ j = cInt f1max then
                (1 / ((f0max - f0min) * (f1max - f1min))) * (f1max - (cInt f1max : ℚ)) else 0)
            + (if i = cInt f0min ∧ (cInt f1min + 1 ≤ j ∧ j < cInt f1max) then
                (1 / ((f0max - f0min) * (f1max - f1min))) * (((cInt f0min : ℚ) + 1) - f0min) else 0)
            + (if i = cInt f0max ∧ (cInt f1min + 1 ≤ j ∧ j < cInt f1max) then
                (1 / ((f0max - f0min) * (f1max - f1min))) * (f0max - (cInt f0max : ℚ)) else 0)) :=
        Finset.sum_congr rfl (fun i _ => Finset.sum_congr rfl (fun j _ => by
          simp only [contrib2d]; rw [if_neg hc0, if_neg hc1]))
      rw [h2]
      simp only [Finset.sum_add_distrib]
      rw [sum2_ee n0 n1 _ _ _ hb00 (lt_of_le_of_lt hb0m hb0x) hb10
          (lt_of_le_of_lt hb1m hb1x),
        sum2_ee n0 n1 _ _ _ hb00 (lt_of_le_of_lt hb0m hb0x)
          (le_trans hb10 hb1m) hb1x,
        sum2_ee n0 n1 _ _ _ (le_trans hb00 hb0m) hb0x hb10
          (lt_of_le_of_lt hb1m hb1x),
        sum2_ee n0 n1 _ _ _ (le_trans hb00 hb0m) hb0x
          (le_trans hb10 hb1m) hb1x,
        sum2_be n0 n1 _ _ _ _ (by omega) (by omega) (by omega) hb10
          (lt_of_le_of_lt hb1m hb1x),
        sum2_bb n0 n1 _ _ _ _ _ (by omega) (by omega) (by omega) (by omega)
          (by omega) (by omega),
        sum2_be n0 n1 _ _ _ _ (by omega) (by omega) (by omega)
          (le_trans hb10 hb1m) hb1x,
        sum2_eb n0 n1 _ _ _ _ hb00 (lt_of_le_of_lt hb0m hb0x) (by omega)
          (by omega) (by omega),
        sum2_eb n0 n1 _ _ _ _ (le_trans hb00 hb0m) hb0x (by omega)
          (by omega) (by omega)]
      field_simp
      ring



/-- A running-minimum fold that skips flagged indices never exceeds its
seed. -/
lemma foldl_runmin_le (l : List ℕ) (g : ℕ → Bool) (v : ℕ → ℚ) (init : ℚ) :
    l.foldl (fun acc i => if g i then acc
      else if v i < acc then v i else acc) init ≤ init := by
  induction l generalizing init with
  | nil => exact le_refl init
  | cons x xs ih =>
    rw [List.foldl_cons]
    refine le_trans (ih _) ?_
    by_cases hg : g x
    · rw [if_pos hg]
    · rw [if_neg hg]
      split
      · linarith
      · exact le_refl init

/-- A running-maximum fold that skips flagged indices never drops below its
seed. -/
lemma foldl_runmax_ge (l : List ℕ) (g : ℕ → Bool) (v : ℕ → ℚ) (init : ℚ) :
    init ≤ l.foldl (fun acc i => if g i then acc
      else if acc < v i then v i else acc) init := by
  induction l generalizing init with
  | nil => exact le_refl init
  | cons x xs ih =>
    rw [List.foldl_cons]
    refine le_trans ?_ (ih _)
    by_cases hg : g x
    · rw [if_pos hg]
    · rw [if_neg hg]
      split
      · linarith
      · exact le_refl init

/-- A fold that skips flagged indices returns its seed when every index is
flagged. -/
lemma foldl_all_skipped (l : List ℕ) (g : ℕ → Bool) (h : ℚ → ℕ → ℚ)
    (init : ℚ) (hm : ∀ i ∈ l, g i = true) :
    l.foldl (fun acc i => if g i then acc else h acc i) init = init := by
  induction l generalizing init with
  | nil => rfl
  | cons x xs ih =>
    rw [List.foldl_cons, if_pos (hm x (List.mem_cons_self x xs)),
      ih init (fun i hi => hm i (List.mem_cons_of_mem x hi))]

lemma toLists_length (m : ℤ → ℤ → ℚ) (r c : ℕ) : (toLists m r c).length = r := by
  rw [toLists, List.length_map, List.length_range]

lemma toLists_row_length (m : ℤ → ℤ → ℚ) (r c : ℕ) :
    ∀ row ∈ toLists m r c, row.length = c := by
  intro row hrow
  rw [toLists] at hrow
  obtain ⟨i, _, rfl⟩ := List.mem_map.mp hrow
  rw [List.length_map, List.length_range]

lemma toLists_getD (m : ℤ → ℤ → ℚ) (r c : ℕ) (i j : ℕ) (hi : i < r)
    (hj : j < c) : ((toLists m r c).getD i []).getD j 0 = m i j := by
  have h1 : (toLists m r c).getD i []
      = (List.range c).map fun j : ℕ => m (i : ℤ) (j : ℤ) := by
    rw [toLists, List.getD_eq_getElem?_getD, List.getElem?_map,
      List.getElem?_range hi]
    simp
  rw [h1, List.getD_eq_getElem?_getD, List.getElem?_map,
    List.getElem?_range hj]
  simp

/-- C1: for every unmasked, non-dummy pixel whose footprint lies fully
inside the active range (expressed in fractional bin coordinates,
0 <= fbin_min <= fbin_max < bins per axis), the fractional overlap
contributions it adds to outCount sum to exactly 1 across all bins, both in
histoBBox1d (left edge fraction + interior bins + right edge fraction, each
times deltaA = 1 / (fbin0_max - fbin0_min)) and in histoBBox2d (corner
fractions + edge runs + interior block, each times one_over_area). -/
theorem c1_conservation :
    (∀ (bins : ℕ) (fmin fmax : ℚ), 0 ≤ fmin → fmin ≤ fmax → fmax < (bins : ℚ) →
      (∑ b in Finset.Ico (0 : ℤ) (bins : ℤ), contrib1d bins fmin fmax b) = 1)
    ∧ (∀ (bins0 bins1 : ℤ) (f0min f0max f1min f1max : ℚ),
        0 ≤ f0min → f0min ≤ f0max → f0max < (bins0 : ℚ) →
        0 ≤ f1min → f1min ≤ f1max → f1max < (bins1 : ℚ) →
      (∑ i in Finset.Ico (0 : ℤ) bins0, ∑ j in Finset.Ico (0 : ℤ) bins1,
          contrib2d f0min f0max f1min f1max i j) = 1) := by
  constructor
  · intro bins fmin fmax h0 hle hb
    have hb1 : 1 ≤ bins := by
      have : (0 : ℚ) < (bins : ℚ) := lt_of_le_of_lt (le_trans h0 hle) hb
      exact_mod_cast this
    rw [contrib1d_total bins fmin fmax hb1 hle,
      if_neg (by push_neg; exact ⟨le_trans h0 hle, lt_of_le_of_lt hle hb⟩)]
  · intro bins0 bins1 f0min f0max f1min f1max h00 h0le h0b h10 h1le h1b
    exact contrib2d_total bins0 bins1 f0min f0max f1min f1max h00 h0le h0b
      h10 h1le h1b

/-- Witness for c1_conservation: a pixel spanning bins 0..2 of a 3-bin 1D
histogram and a pixel spanning the four bins of a 2x2 2D histogram. -/
theorem c1_conservation_witness :
    ((0 : ℚ) ≤ 1/2 ∧ (1/2 : ℚ) ≤ 9/4 ∧ (9/4 : ℚ) < ((3 : ℕ) : ℚ)
      ∧ (∑ b in Finset.Ico (0 : ℤ) ((3 : ℕ) : ℤ), contrib1d 3 (1/2) (9/4) b) = 1)
    ∧ ((0 : ℚ) ≤ 1/4 ∧ (1/4 : ℚ) ≤ 3/2 ∧ (3/2 : ℚ) < ((2 : ℤ) : ℚ)
      ∧ (∑ i in Finset.Ico (0 : ℤ) 2, ∑ j in Finset.Ico (0 : ℤ) 2,
          contrib2d (1/4) (3/2) (1/4) (3/2) i j) = 1) :=
  ⟨⟨by norm_num, by norm_num, by norm_num,
      c1_conservation.1 3 (1/2) (9/4) (by norm_num) (by norm_num) (by norm_num)⟩,
   ⟨by norm_num, by norm_num, by norm_num,
      c1_conservation.2 2 2 (1/4) (3/2) (1/4) (3/2) (by norm_num) (by norm_num)
        (by norm_num) (by norm_num) (by norm_num) (by norm_num)⟩⟩

/-- C9: in both splitters a pixel whose clipped footprint has zero width on
an axis falls into the single-bin branch on that axis, and the denominators
of deltaA = 1 / (fbin0_max - fbin0_min) and one_over_area = 1 / area_pixel
are strictly positive whenever the corresponding split branch is entered
(assuming ordered fractional bounds, i.e. nonnegative half-widths and a
positive bin width). -/
theorem c9_no_division_by_zero :
    (∀ (bins : ℕ) (fmin fmax : ℚ), fmin ≤ fmax →
        ¬(fmax < 0 ∨ (bins : ℚ) ≤ fmin) →
      (fmin = fmax → bin0_minOf fmin = bin0_maxOf bins fmax)
      ∧ (bin0_minOf fmin ≠ bin0_maxOf bins fmax → 0 < fmax - fmin))
    ∧ (∀ f0min f0max f1min f1max : ℚ, f0min ≤ f0max → f1min ≤ f1max →
      (f0min = f0max → cInt f0min = cInt f0max)
      ∧ (cInt f0min ≠ cInt f0max → 0 < f0max - f0min)
      ∧ (cInt f1min ≠ cInt f1max → 0 < f1max - f1min)
      ∧ (cInt f0min ≠ cInt f0max → cInt f1min ≠ cInt f1max →
          0 < (f0max - f0min) * (f1max - f1min))) := by
  constructor
  · intro bins fmin fmax hle hns
    refine ⟨fun h => ?_, fun hne => split_width_pos bins fmin fmax hle hns hne⟩
    subst h
    exact single_bin_of_zero_width bins fmin hns
  · intro f0min f0max f1min f1max h0 h1
    refine ⟨fun h => by rw [h], fun hne => ?_, fun hne => ?_, fun hne0 hne1 => ?_⟩
    · have := lt_of_le_of_cInt_ne h0 hne
      linarith
    · have := lt_of_le_of_cInt_ne h1 hne
      linarith
    · have hh0 := lt_of_le_of_cInt_ne h0 hne0
      have hh1 := lt_of_le_of_cInt_ne h1 hne1
      have : 0 < f0max - f0min := by linarith
      have : 0 < f1max - f1min := by linarith
      positivity

/-- Witness for c9_no_division_by_zero: a zero-width pixel at 1/2 in a
2-bin histogram stays single-bin, and a genuine 2D split has positive
area. -/
theorem c9_no_division_by_zero_witness :
    (bin0_minOf (1/2 : ℚ) = bin0_maxOf 2 (1/2) )
    ∧ (0 : ℚ) < (7/4 : ℚ) - 1/4 :=
  ⟨(c9_no_division_by_zero.1 2 (1/2) (1/2) le_rfl
      (by norm_num)).1 rfl,
   by
    have h := (c9_no_division_by_zero.2 (1/4) (7/4) 0 0 (by norm_num) le_rfl).2.1
    exact h (of_decide_eq_true (by with_unfolding_all rfl))⟩

/-- C8: the concrete split scenario: one pixel of weight 100 at pos0 = 1
with half-width 0.6, bins = 2, pos0Range = [0, 2]; histoBBox1d puts half of
the count mass and half of the weight into each bin, up to the floating
tolerance left by the upper-bound rounding, and the two count fractions sum
to exactly 1. -/
theorem c8_concrete_split :
    valid1d argsC8 = true
    ∧ absQ ((histoBBox1d argsC8).outCount 0 - 1/2) ≤ 1/100000
    ∧ absQ ((histoBBox1d argsC8).outCount 1 - 1/2) ≤ 1/100000
    ∧ (histoBBox1d argsC8).outCount 0 + (histoBBox1d argsC8).outCount 1 = 1
    ∧ absQ ((histoBBox1d argsC8).outData 0 - 50) ≤ 1/100
    ∧ absQ ((histoBBox1d argsC8).outData 1 - 50) ≤ 1/100 :=
  ⟨rfl,
   of_decide_eq_true (by with_unfolding_all rfl),
   of_decide_eq_true (by with_unfolding_all rfl),
   by with_unfolding_all rfl,
   of_decide_eq_true (by with_unfolding_all rfl),
   of_decide_eq_true (by with_unfolding_all rfl)⟩

/-- C6: in both histoBBox1d and histoBBox2d each merged bin equals
outData / outCount / normalization_factor when outCount exceeds the epsilon
1e-10 and the configured dummy value (falling back to the empty value, then
to 0) otherwise. -/
theorem c6_merge_formula :
    (∀ (a : Args1) (b : ℤ),
      (histoBBox1d a).outMerge b =
        if 1 / 10000000000 < outCount1 a b then
          outData1 a b / outCount1 a b / a.normalization_factor
        else a.dummy.getD (a.empty.getD 0))
    ∧ (∀ (piQ : ℚ) (a : Args2) (i j : ℤ),
      outMerge2 piQ a i j =
        if 1 / 10000000000 < outCount2 piQ a i j then
          outData2 piQ a i j / outCount2 piQ a i j / a.normalization_factor
        else a.dummy.getD a.empty) := by
  constructor
  · intro a b
    show outMerge1 a b = _
    rcases h : a.dummy with _ | d
    · simp [outMerge1, cdummy1, epsilonQ, h]
    · simp [outMerge1, cdummy1, epsilonQ, h]
  · intro piQ a i j
    rcases h : a.dummy with _ | d
    · simp [outMerge2, cdummy2, epsilonQ, h]
    · simp [outMerge2, cdummy2, epsilonQ, h]


/-- C4 counterexample: a structurally valid 1D call with bins = 0 is not
clamped up to 1; histoBBox1d rejects it at its entry assertion
(assert bins > 1) and returns nothing, so the claim that both entry points
clamp and return normally is false. -/
theorem c4_counterexample :
    argsC4.bins = 0 ∧ valid1d argsC4 = false :=
  ⟨rfl, rfl⟩

/-- C4 (amended): histoBBox2d clamps nonpositive bin counts to 1 and its
validation never inspects the bin counts (so such calls return normally,
always with at least one bin per axis); histoBBox1d instead rejects every
bin count of at most 1 through its entry assertion. -/
theorem c4_bins_clamp :
    (∀ a : Args2,
      (a.bins0 ≤ 0 → binsR0 a = 1) ∧ (a.bins1 ≤ 0 → binsR1 a = 1)
      ∧ 1 ≤ binsR0 a ∧ 1 ≤ binsR1 a
      ∧ (∀ b0 b1 : ℤ, valid2d { a with bins0 := b0, bins1 := b1 } = valid2d a))
    ∧ (∀ a : Args1, a.bins ≤ 1 → valid1d a = false) := by
  constructor
  · intro a
    refine ⟨fun h => ?_, fun h => ?_, ?_, ?_, fun b0 b1 => rfl⟩
    · rw [binsR0, if_pos h]
      rfl
    · rw [binsR1, if_pos h]
      rfl
    · rw [binsR0]
      split
      · omega
      · rename_i h
        omega
    · rw [binsR1]
      split
      · omega
      · rename_i h
        omega
  · intro a h
    have hb : decide (1 < a.bins) = false := decide_eq_false (by omega)
    simp only [valid1d, hb, Bool.and_false, Bool.false_and]

/-- Witness for c4_bins_clamp: a 2D call asking for -3 radial bins resolves
to 1 bin, and the 1D call asking for 0 bins fails validation. -/
theorem c4_bins_clamp_witness :
    argsC4w.bins0 ≤ 0 ∧ binsR0 argsC4w = 1
    ∧ argsC4.bins ≤ 1 ∧ valid1d argsC4 = false :=
  ⟨by decide, (c4_bins_clamp.1 argsC4w).1 (by decide), by decide,
   c4_bins_clamp.2 argsC4 (by decide)⟩

/-- C5 counterexample: with the explicit range pos0Range = (-1, 2) the
resolved histoBBox1d minimum is 0, not min(pos0Range) = -1: the
clamp-negative-minimum-to-zero step runs AFTER the user range override and
wins over it. -/
theorem c5_counterexample :
    argsC5.pos0Range = some (-1, 2)
    ∧ minQ (-1) 2 = -1
    ∧ (histoBBox1d argsC5).rng.pos0_min = 0
    ∧ (histoBBox1d argsC5).rng.pos0_maxin = 2
    ∧ (0 : ℚ) ≠ -1 :=
  ⟨rfl, by with_unfolding_all rfl, by with_unfolding_all rfl,
   by with_unfolding_all rfl, by norm_num⟩

/-- C5 (amended): a supplied pos0Range always fixes the user-visible
maximum to max(pos0Range), and fixes the resolved minimum to min(pos0Range)
only when that minimum is nonnegative (or, in 2D, when allow_pos0_neg is
set); a supplied negative minimum is clamped to 0 afterwards. -/
theorem c5_range_override :
    (∀ (a : Args1) (lo hi : ℚ), a.pos0Range = some (lo, hi) →
      (range1dOf a).pos0_maxin = maxQ lo hi
      ∧ (0 ≤ minQ lo hi → (range1dOf a).pos0_min = minQ lo hi))
    ∧ (∀ (piQ : ℚ) (a : Args2) (lo hi : ℚ), a.pos0Range = some (lo, hi) →
      (range2dOf piQ a).pos0_maxin = maxQ lo hi
      ∧ ((a.allow_pos0_neg = true ∨ 0 ≤ minQ lo hi) →
          (range2dOf piQ a).pos0_min = minQ lo hi)) := by
  constructor
  · intro a lo hi h
    constructor
    · simp only [range1dOf, h]
    · intro hpos
      simp only [range1dOf, h]
      rw [if_neg (not_lt.mpr hpos)]
  · intro piQ a lo hi h
    constructor
    · simp only [range2dOf, h]
    · intro hcase
      simp only [range2dOf, h]
      rcases hcase with hallow | hpos
      · rw [if_neg (by simp [hallow])]
      · rw [if_neg (by simp [not_lt.mpr hpos])]

/-- Witness for c5_range_override at the range (0, 2). -/
theorem c5_range_override_witness :
    argsC8.pos0Range = some (0, 2)
    ∧ (0 : ℚ) ≤ minQ 0 2
    ∧ (range1dOf argsC8).pos0_maxin = maxQ 0 2
    ∧ (range1dOf argsC8).pos0_min = minQ 0 2 :=
  ⟨rfl, of_decide_eq_true (by with_unfolding_all rfl),
   (c5_range_override.1 argsC8 0 2 rfl).1,
   (c5_range_override.1 argsC8 0 2 rfl).2
     (of_decide_eq_true (by with_unfolding_all rfl))⟩

/-- C3 (code bug): in histoBBox2d a dummy supplied without delta_dummy
never arms the dummy test (the elif branch of splitBBox.pyx lines 364-365
sets cdummy but not check_dummy), so a pixel whose raw weight equals the
dummy value exactly is still accumulated with full mass, against the claim;
histoBBox1d on the same input arms the test with tolerance 0 and excludes
the pixel from every bin. -/
theorem c3_dummy_2d_divergence :
    valid2d argsC3 = true
    ∧ argsC3.dummy = some 5 ∧ argsC3.delta_dummy = none
    ∧ getQ argsC3.weights 0 = 5
    ∧ check_dummy2 argsC3 = false
    ∧ accept2 argsC3 0 = true
    ∧ outCount2 piC argsC3 0 0 = 1
    ∧ argsC3b.dummy = some 5 ∧ argsC3b.delta_dummy = none
    ∧ getQ argsC3b.weights 0 = 5
    ∧ dummyReject1 argsC3b 0 = true
    ∧ outCount1 argsC3b 0 = 0 ∧ outCount1 argsC3b 1 = 0 := by
  refine ⟨?_, ?_, ?_, ?_, ?_, ?_, ?_, ?_, ?_, ?_, ?_, ?_, ?_⟩ <;>
    with_unfolding_all rfl

/-- C7 counterexample: with bins0 = 2, bins1 = 3 the returned merged array
of histoBBox2d has 3 rows of 2 entries, i.e. shape [bins1][bins0], not the
claimed [bins0][bins1]. -/
theorem c7_counterexample :
    binsR0 argsC7 = 2 ∧ binsR1 argsC7 = 3
    ∧ (histoBBox2d piC argsC7).retMerge.length = 3
    ∧ (histoBBox2d piC argsC7).retMerge.length ≠ binsR0 argsC7
    ∧ ((histoBBox2d piC argsC7).retMerge.map List.length) = [2, 2, 2] := by
  refine ⟨?_, ?_, ?_, ?_, ?_⟩
  · with_unfolding_all rfl
  · with_unfolding_all rfl
  · with_unfolding_all rfl
  · exact of_decide_eq_true (by with_unfolding_all rfl)
  · with_unfolding_all rfl

/-- C7 (amended): histoBBox2d returns its merged intensity, sumData and
sumCount TRANSPOSED relative to the internal accumulators: the returned
nested lists have bins1 rows of bins0 entries each, the entry at row j,
column i being the internal cell (i, j). -/
theorem c7_returned_transposed (piQ : ℚ) (a : Args2) :
    (histoBBox2d piQ a).retMerge.length = binsR1 a
    ∧ (histoBBox2d piQ a).retData.length = binsR1 a
    ∧ (histoBBox2d piQ a).retCount.length = binsR1 a
    ∧ (∀ row ∈ (histoBBox2d piQ a).retMerge, row.length = binsR0 a)
    ∧ (∀ i j : ℕ, i < binsR0 a → j < binsR1 a →
        (((histoBBox2d piQ a).retMerge.getD j []).getD i 0
            = outMerge2 piQ a i j
        ∧ ((histoBBox2d piQ a).retData.getD j []).getD i 0
            = outData2 piQ a i j
        ∧ ((histoBBox2d piQ a).retCount.getD j []).getD i 0
            = outCount2 piQ a i j)) := by
  simp only [histoBBox2d]
  refine ⟨toLists_length _ _ _, toLists_length _ _ _, toLists_length _ _ _,
    toLists_row_length _ _ _, ?_⟩
  intro i j hi hj
  exact ⟨toLists_getD _ _ _ j i hj hi, toLists_getD _ _ _ j i hj hi,
    toLists_getD _ _ _ j i hj hi⟩

/-- Witness for c7_returned_transposed at the 2x3 input, cell (0, 0). -/
theorem c7_returned_transposed_witness :
    (0 < binsR0 argsC7 ∧ 0 < binsR1 argsC7)
    ∧ ((histoBBox2d piC argsC7).retMerge.getD 0 []).getD 0 0
        = outMerge2 piC argsC7 0 0 :=
  ⟨⟨by decide, by decide⟩,
   ((c7_returned_transposed piC argsC7).2.2.2.2 0 0 (by decide) (by decide)).1⟩


lemma scanMin1d_le_seed (a : Args1) : scanMin1d a ≤ getQ a.pos0 0 :=
  foldl_runmin_le _ _ _ _

lemma scanMax1d_ge_seed (a : Args1) : getQ a.pos0 0 ≤ scanMax1d a :=
  foldl_runmax_ge _ _ _ _

lemma scanMin1d_all_masked (a : Args1)
    (hm : ∀ i < a.weights.length, masked1 a i = true) :
    scanMin1d a = getQ a.pos0 0 :=
  foldl_all_skipped _ _ _ _ (fun i hi => hm i (List.mem_range.mp hi))

lemma scanMax1d_all_masked (a : Args1)
    (hm : ∀ i < a.weights.length, masked1 a i = true) :
    scanMax1d a = getQ a.pos0 0 :=
  foldl_all_skipped _ _ _ _ (fun i hi => hm i (List.mem_range.mp hi))

lemma scanMin0_2d_le_seed (a : Args2) : scanMin0_2d a ≤ getQ a.pos0 0 :=
  foldl_runmin_le _ _ _ _

lemma scanMax0_2d_ge_seed (a : Args2) : getQ a.pos0 0 ≤ scanMax0_2d a :=
  foldl_runmax_ge _ _ _ _

lemma scanMin0_2d_all_masked (a : Args2)
    (hm : ∀ i < a.weights.length, masked2 a i = true) :
    scanMin0_2d a = getQ a.pos0 0 :=
  foldl_all_skipped _ _ _ _ (fun i hi => hm i (List.mem_range.mp hi))

lemma scanMax0_2d_all_masked (a : Args2)
    (hm : ∀ i < a.weights.length, masked2 a i = true) :
    scanMax0_2d a = getQ a.pos0 0 :=
  foldl_all_skipped _ _ _ _ (fun i hi => hm i (List.mem_range.mp hi))

lemma scanMin1_2d_le_seed (piQ : ℚ) (a : Args2) :
    scanMin1_2d piQ a ≤ getQ a.pos1 0 :=
  foldl_runmin_le _ _ _ _

lemma scanMax1_2d_ge_seed (piQ : ℚ) (a : Args2) :
    getQ a.pos1 0 ≤ scanMax1_2d piQ a :=
  foldl_runmax_ge _ _ _ _

lemma scanMin1_2d_all_masked (piQ : ℚ) (a : Args2)
    (hm : ∀ i < a.weights.length, masked2 a i = true) :
    scanMin1_2d piQ a = getQ a.pos1 0 :=
  foldl_all_skipped _ _ _ _ (fun i hi => hm i (List.mem_range.mp hi))

lemma scanMax1_2d_all_masked (piQ : ℚ) (a : Args2)
    (hm : ∀ i < a.weights.length, masked2 a i = true) :
    scanMax1_2d piQ a = getQ a.pos1 0 :=
  foldl_all_skipped _ _ _ _ (fun i hi => hm i (List.mem_range.mp hi))

/-- C10 counterexample: histoBBox1d does seed the scan with pixel 0's
center before consulting the mask, but when that center is negative the
later clamp of the resolved minimum to 0 breaks both the claimed
containment and the claimed degeneration: with one masked pixel at center
-1 the resolved range is [0, -1], not the single value -1. -/
theorem c10_counterexample :
    argsC10.pos0Range = none
    ∧ masked1 argsC10 0 = true
    ∧ getQ argsC10.pos0 0 = -1
    ∧ (range1dOf argsC10).pos0_min = 0
    ∧ (range1dOf argsC10).pos0_maxin = -1
    ∧ (range1dOf argsC10).pos0_min ≠ getQ argsC10.pos0 0 := by
  refine ⟨rfl, rfl, ?_, ?_, ?_, ?_⟩
  · with_unfolding_all rfl
  · with_unfolding_all rfl
  · with_unfolding_all rfl
  · exact of_decide_eq_true (by with_unfolding_all rfl)

/-- C10 (amended): both scan passes seed the running range with pixel 0's
center coordinate before the mask is consulted, so with no user range the
resolved range contains the first center, and with every pixel masked it
degenerates to exactly that center -- on axis 0 only provided the center is
nonnegative (or allow_pos0_neg is set in 2D), because the resolved axis-0
minimum is afterwards clamped to 0; on axis 1 unconditionally. -/
theorem c10_scan_seed :
    (∀ a : Args1, a.pos0Range = none →
      (0 ≤ getQ a.pos0 0 →
        (range1dOf a).pos0_min ≤ getQ a.pos0 0
        ∧ getQ a.pos0 0 ≤ (range1dOf a).pos0_maxin)
      ∧ ((∀ i < a.weights.length, masked1 a i = true) →
        (range1dOf a).pos0_maxin = getQ a.pos0 0
        ∧ (0 ≤ getQ a.pos0 0 → (range1dOf a).pos0_min = getQ a.pos0 0)))
    ∧ (∀ (piQ : ℚ) (a : Args2),
      (a.pos0Range = none →
        ((a.allow_pos0_neg = true ∨ 0 ≤ getQ a.pos0 0) →
          (range2dOf piQ a).pos0_min ≤ getQ a.pos0 0
          ∧ getQ a.pos0 0 ≤ (range2dOf piQ a).pos0_maxin)
        ∧ ((∀ i < a.weights.length, masked2 a i = true) →
          (range2dOf piQ a).pos0_maxin = getQ a.pos0 0
          ∧ ((a.allow_pos0_neg = true ∨ 0 ≤ getQ a.pos0 0) →
            (range2dOf piQ a).pos0_min = getQ a.pos0 0)))
      ∧ (a.pos1Range = none →
        ((range2dOf piQ a).pos1_min ≤ getQ a.pos1 0
          ∧ getQ a.pos1 0 ≤ (range2dOf piQ a).pos1_maxin)
        ∧ ((∀ i < a.weights.length, masked2 a i = true) →
          (range2dOf piQ a).pos1_min = getQ a.pos1 0
          ∧ (range2dOf piQ a).pos1_maxin = getQ a.pos1 0))) := by
  constructor
  · intro a h
    constructor
    · intro hc
      constructor
      · simp only [range1dOf, h]
        split
        · exact hc
        · exact scanMin1d_le_seed a
      · simp only [range1dOf, h]
        exact scanMax1d_ge_seed a
    · intro hm
      constructor
      · simp only [range1dOf, h]
        exact scanMax1d_all_masked a hm
      · intro hc
        simp only [range1dOf, h, scanMin1d_all_masked a hm]
        rw [if_neg (not_lt.mpr hc)]
  · intro piQ a
    constructor
    · intro h
      constructor
      · intro hcase
        constructor
        · simp only [range2dOf, h]
          rcases hcase with hallow | hc
          · rw [if_neg (by simp [hallow])]
            exact scanMin0_2d_le_seed a
          · split
            · exact hc
            · exact scanMin0_2d_le_seed a
        · simp only [range2dOf, h]
          exact scanMax0_2d_ge_seed a
      · intro hm
        constructor
        · simp only [range2dOf, h]
          exact scanMax0_2d_all_masked a hm
        · intro hcase
          simp only [range2dOf, h, scanMin0_2d_all_masked a hm]
          rcases hcase with hallow | hc
          · rw [if_neg (by simp [hallow])]
          · rw [if_neg (by simp [not_lt.mpr hc])]
    · intro h
      constructor
      · constructor
        · simp only [range2dOf, h]
          exact scanMin1_2d_le_seed piQ a
        · simp only [range2dOf, h]
          exact scanMax1_2d_ge_seed piQ a
      · intro hm
        constructor
        · simp only [range2dOf, h]
          exact scanMin1_2d_all_masked piQ a hm
        · simp only [range2dOf, h]
          exact scanMax1_2d_all_masked piQ a hm

/-- Witness for c10_scan_seed: an all-masked single-pixel 1D input with
center 1 and no user range resolves to the degenerate range [1, 1]. -/
theorem c10_scan_seed_witness :
    argsC10w.pos0Range = none
    ∧ (0 : ℚ) ≤ getQ argsC10w.pos0 0
    ∧ masked1 argsC10w 0 = true
    ∧ (range1dOf argsC10w).pos0_maxin = getQ argsC10w.pos0 0
    ∧ (range1dOf argsC10w).pos0_min = getQ argsC10w.pos0 0 := by
  have hm : ∀ i < argsC10w.weights.length, masked1 argsC10w i = true := by
    intro i hi
    have hl : argsC10w.weights.length = 1 := rfl
    have : i = 0 := by omega
    subst this
    rfl
  have h := (c10_scan_seed.1 argsC10w rfl).2 hm
  exact ⟨rfl, of_decide_eq_true (by with_unfolding_all rfl), rfl, h.1,
    h.2 (of_decide_eq_true (by with_unfolding_all rfl))⟩

/-- C2 counterexample: a pixel whose footprint [-1/2, 1/2] is half clipped
away by the range [0, 2] still adds a full 1.0 to the count total (it lands
in the single-bin branch after index clamping), while the spec's sum of
clipped overlap fractions predicts 1/2. -/
theorem c2_counterexample :
    valid1d argsC2 = true
    ∧ accept1 argsC2 0 = true
    ∧ (∑ b in Finset.Ico (0 : ℤ) (argsC2.bins : ℤ), outCount1 argsC2 b) = 1
    ∧ specOverlapTotal argsC2 = 1/2
    ∧ (1 : ℚ) ≠ 1/2 := by
  refine ⟨rfl, rfl, ?_, ?_, by norm_num⟩
  · with_unfolding_all rfl
  · with_unfolding_all rfl

/-- C2 (amended): after histoBBox1d every outCount bin is nonnegative and
the total of outCount equals the NUMBER of accepted (unmasked, non-dummy,
azimuth-passing) pixels whose fractional footprint meets [0, bins): each
such pixel contributes exactly 1.0 -- also when clipped at the range edges
-- and every accepted pixel is processed exactly once (the total is a sum
with one term per pixel index).  Hypotheses: valid input, nonnegative
half-widths, positive bin width. -/
theorem c2_count_invariant (a : Args1)
    (hv : valid1d a = true)
    (hd : ∀ i, i < a.weights.length → 0 ≤ getQ a.delta_pos0 i)
    (hδ : 0 < (range1dOf a).delta) :
    (∀ b : ℤ, 0 ≤ outCount1 a b)
    ∧ (∑ b in Finset.Ico (0 : ℤ) (a.bins : ℤ), outCount1 a b)
      = ∑ i in Finset.range a.weights.length,
          (if accept1 a i = true
              ∧ ¬(fmax1 a i < 0 ∨ (a.bins : ℚ) ≤ fmin1 a i)
            then (1 : ℚ) else 0) := by
  have hbins : 1 ≤ a.bins := by
    simp only [valid1d, Bool.and_eq_true, decide_eq_true_eq] at hv
    exact le_of_lt hv.1.1.1.1.1.1.2
  have hle : ∀ i, i < a.weights.length → fmin1 a i ≤ fmax1 a i := by
    intro i hi
    rw [fmin1, fmax1, get_bin_number, get_bin_number]
    apply (div_le_div_iff_of_pos_right hδ).mpr
    have := hd i hi
    linarith
  constructor
  · intro b
    apply Finset.sum_nonneg
    intro i hi
    by_cases hacc : accept1 a i = true
    · rw [if_pos hacc]
      exact contrib1d_nonneg a.bins _ _ (hle i (Finset.mem_range.mp hi)) b
    · rw [if_neg hacc]
  · rw [show (∑ b in Finset.Ico (0 : ℤ) (a.bins : ℤ), outCount1 a b)
        = ∑ b in Finset.Ico (0 : ℤ) (a.bins : ℤ),
            ∑ i in Finset.range a.weights.length,
              (if accept1 a i = true then
                contrib1d a.bins (fmin1 a i) (fmax1 a i) b else 0) from rfl]
    rw [Finset.sum_comm]
    apply Finset.sum_congr rfl
    intro i hi
    by_cases hacc : accept1 a i = true
    · have h2 : (∑ b in Finset.Ico (0 : ℤ) (a.bins : ℤ),
          (if accept1 a i = true then
            contrib1d a.bins (fmin1 a i) (fmax1 a i) b else 0))
          = ∑ b in Finset.Ico (0 : ℤ) (a.bins : ℤ),
              contrib1d a.bins (fmin1 a i) (fmax1 a i) b :=
        Finset.sum_congr rfl (fun b _ => if_pos hacc)
      rw [h2, contrib1d_total a.bins _ _ hbins (hle i (Finset.mem_range.mp hi))]
      by_cases hskip : fmax1 a i < 0 ∨ (a.bins : ℚ) ≤ fmin1 a i
      · rw [if_pos hskip, if_neg (fun hh => hh.2 hskip)]
      · rw [if_neg hskip, if_pos ⟨hacc, hskip⟩]
    · have h2 : (∑ b in Finset.Ico (0 : ℤ) (a.bins : ℤ),
          (if accept1 a i = true then
            contrib1d a.bins (fmin1 a i) (fmax1 a i) b else 0)) = 0 :=
        Finset.sum_eq_zero (fun b _ => if_neg hacc)
      rw [h2, if_neg (fun hh => hacc hh.1)]

/-- Witness for c2_count_invariant at the concrete split input: validation
holds, the bin width is positive, the half-widths are nonnegative, and
every count bin is nonnegative. -/
theorem c2_count_invariant_witness :
    valid1d argsC8 = true
    ∧ (0 : ℚ) < (range1dOf argsC8).delta
    ∧ (∀ b : ℤ, 0 ≤ outCount1 argsC8 b) := by
  refine ⟨rfl, of_decide_eq_true (by with_unfolding_all rfl), ?_⟩
  exact (c2_count_invariant argsC8 rfl
    (fun i hi => by
      have hl : argsC8.weights.length = 1 := rfl
      have hz : i = 0 := by omega
      subst hz
      exact of_decide_eq_true (by with_unfolding_all rfl))
    (of_decide_eq_true (by with_unfolding_all rfl))).1

end SplitBBox
